import Mathlib

/-!
# automerger: the admission-control loop of `main.go`

A shallow embedding of `main.go`.  The program talks to the hosting platform
only through `executeCommand` (the `gh` command line tool) and decodes its
answers with `json.Unmarshal`; both are external, so they are the two fields
of a `Host`.  Every function of the program takes the host and the current
state of the outside world, and gives back its Go result, the new state and
the events it produced, in order.

Go strings are modelled by `String`.  Errors are modelled by their message.
-/

namespace Automerger

/-! ## Data model -/

/-- The ceiling on queued PRs: `const maxAutomergePRs = 5`. -/
def maxAutomergePRs : Int := 5

/-- A label of a pull request: `type label struct`. -/
structure label where
  Id : String
  Name : String
deriving DecidableEq, Repr

/-- A pull request as decoded from the query answer: `type pullRequest struct`. -/
structure pullRequest where
  Id : String
  Number : Int
  Title : String
  Labels : List label
deriving DecidableEq, Repr

/-! ## Library functions used by the program -/

/-- Go `strings.HasPrefix(s, p)`.  Go compares bytes; titles come out of
`json.Unmarshal`, hence are valid UTF-8, where a byte-wise leading segment is
the same as a character-wise one. -/
def HasPrefix (s p : String) : Bool :=
  p.data.isPrefixOf s.data

/-- Go `slices.Contains(s, v)`. -/
def Contains (s : List String) (v : String) : Bool :=
  s.any (fun e => e == v)

/-- Go `slices.ContainsFunc(s, f)`. -/
def ContainsFunc {α : Type} (s : List α) (f : α → Bool) : Bool :=
  s.any f

/-- Go `strconv.Itoa`: the decimal rendering of an integer, with a leading
minus sign for a negative one.  Also what the `%d` verb prints. -/
def Itoa : Int → String
  | Int.ofNat m => String.mk (Nat.toDigits 10 m)
  | Int.negSucc m => String.mk ('-' :: Nat.toDigits 10 (m + 1))

/-! ## The outside world -/

/-- What the program does that can be observed from outside, in order. -/
inductive Event where
  /-- `exec.Command("gh", args...)` was run by `executeCommand`. -/
  | exec (args : List String)
  /-- Text written to standard output by `fmt.Println` or `fmt.Printf`. -/
  | stdout (text : String)
  /-- The message of a `log.Printf` call (the logger's time stamp left out). -/
  | logPrintf (text : String)
  /-- The message of a `log.Fatalf` call, which then exits with code 1. -/
  | fatalf (text : String)
  /-- `time.Sleep` for that many minutes. -/
  | sleep (minutes : Nat)
deriving DecidableEq, Repr

/-- The external collaborators.  `gh args w` is the `gh` tool run with `args`
in world state `w`: its combined output, its error if any, and the world
afterwards.  `Unmarshal` is `json.Unmarshal` into a `[]pullRequest`.  The
output is only ever handed to `Unmarshal`, so its representation `Out` is left
open (`String` in the program). -/
structure Host (σ Out : Type) where
  gh : List String → σ → (Out × Option String) × σ
  Unmarshal : Out → Except String (List pullRequest)

/-- A Go result together with the world afterwards and the events produced. -/
structure Run (σ α : Type) where
  value : α
  state : σ
  trace : List Event

/-- How far the process has got. -/
inductive Status where
  /-- Still inside the `for` loop of `main`. -/
  | running
  /-- The process ended with this exit code. -/
  | exited (code : Nat)
  /-- A Go run-time panic (index out of range). -/
  | panicked
deriving DecidableEq, Repr

/-! ## The program -/

/-- The function `executeCommand`: run `gh` and hand back output and error. -/
def executeCommand {σ Out : Type} (h : Host σ Out) (args : List String) (w : σ) :
    Run σ (Out × Option String) :=
  let r := h.gh args w
  ⟨r.1, r.2, [Event.exec args]⟩

/-- The loop `for _, label := range labels { params = append(params, "--label", label) }`. -/
def appendLabels : List String → List String → List String
  | params, [] => params
  | params, l :: rest => appendLabels (params ++ ["--label", l]) rest

/-- The function `fetchPRsByLabel`. -/
def fetchPRsByLabel {σ Out : Type} (h : Host σ Out) (repo : String) (labels : List String)
    (w : σ) : Run σ (Except String (List pullRequest)) :=
  let params := ["pr", "list", "--repo", repo, "--limit", "100"]
  let params := appendLabels params labels
  let params := params ++ ["--json", "id,number,title,labels"]
  let r := executeCommand h params w
  match r.value.2 with
  | some err => ⟨Except.error err, r.state, r.trace⟩
  | none =>
    match h.Unmarshal r.value.1 with
    | Except.error err => ⟨Except.error err, r.state, r.trace⟩
    | Except.ok prs => ⟨Except.ok prs, r.state, r.trace⟩

/-- The function `fetchPRs`, a second copy of the same body in the source. -/
def fetchPRs {σ Out : Type} (h : Host σ Out) (repo : String) (labels : List String)
    (w : σ) : Run σ (Except String (List pullRequest)) :=
  let params := ["pr", "list", "--repo", repo, "--limit", "100"]
  let params := appendLabels params labels
  let params := params ++ ["--json", "id,number,title,labels"]
  let r := executeCommand h params w
  match r.value.2 with
  | some err => ⟨Except.error err, r.state, r.trace⟩
  | none =>
    match h.Unmarshal r.value.1 with
    | Except.error err => ⟨Except.error err, r.state, r.trace⟩
    | Except.ok prs => ⟨Except.ok prs, r.state, r.trace⟩

/-- The method `pullRequest.Label`: the result is the error, if any. -/
def pullRequest.Label {σ Out : Type} (pr : pullRequest) (h : Host σ Out) (repo : String)
    (l : String) (w : σ) : Run σ (Option String) :=
  let r := executeCommand h ["pr", "edit", Itoa pr.Number, "--repo", repo, "--add-label", l] w
  ⟨r.value.2, r.state, r.trace⟩

/-- The method `pullRequest.Delabel`.  No live code calls it. -/
def pullRequest.Delabel {σ Out : Type} (pr : pullRequest) (h : Host σ Out) (repo : String)
    (w : σ) : Run σ (Option String) :=
  let r := executeCommand h
    ["pr", "edit", Itoa pr.Number, "--repo", repo, "--remove-label", "automerge"] w
  ⟨r.value.2, r.state, r.trace⟩

/-- The closure handed to `slices.ContainsFunc` in `main`. -/
def excludedLabel (l : label) : Bool :=
  Contains ["wip", "automerge", "no automerge"] l.Name

/-- The loop `for _, pr := range resp` of `main` that builds `pendingPRs`;
the second argument is `pendingPRs` so far. -/
def pendingLoop : List pullRequest → List pullRequest → List pullRequest
  | [], pendingPRs => pendingPRs
  | pr :: rest, pendingPRs =>
    if !HasPrefix pr.Title "chore(main): Release plugins-" then
      pendingLoop rest pendingPRs
    else if ContainsFunc pr.Labels excludedLabel then
      pendingLoop rest pendingPRs
    else
      pendingLoop rest (pendingPRs ++ [pr])

/-- The list `pendingPRs` of `main` once the filter loop is over; it starts
out as `make([]pullRequest, 0, len(resp))`. -/
def eligible (resp : List pullRequest) : List pullRequest :=
  pendingLoop resp []

/-- One line of a report: `fmt.Printf("\t - #%d: %s\n", pr.Number, pr.Title)`. -/
def reportLine (pr : pullRequest) : Event :=
  Event.stdout ("\t - #" ++ Itoa pr.Number ++ ": " ++ pr.Title ++ "\n")

/-- The loop `for i := 0; i < toLabel; i++` of `main`.  The first number is
how many rounds are left (`toLabel - i`), the second is `i`. -/
def labelLoop {σ Out : Type} (h : Host σ Out) (repo : String) (pendingPRs : List pullRequest) :
    Nat → Nat → σ → Run σ Status
  | 0, _, w => ⟨Status.running, w, []⟩
  | k + 1, i, w =>
    match pendingPRs[i]? with
    | none => ⟨Status.panicked, w, []⟩
    | some pr =>
      let announce := Event.logPrintf
        ("Labeling PR #" ++ Itoa pr.Number ++ ": " ++ pr.Title ++ " with automerge.\n")
      let r := pr.Label h repo "automerge" w
      match r.value with
      | some err =>
        ⟨Status.exited 1, r.state, announce :: r.trace ++ [Event.fatalf
          ("Failed to label PR #%!s(int=" ++ Itoa pr.Number ++ "): " ++ pr.Title ++ " = " ++ err)]⟩
      | none =>
        let done := Event.stdout
          ("Labeled PR #" ++ Itoa pr.Number ++ ": " ++ pr.Title ++ " with automerge.\n")
        let rest := labelLoop h repo pendingPRs k (i + 1) r.state
        ⟨rest.value, rest.state, announce :: r.trace ++ done :: rest.trace⟩

/-- The promotion step of `main`: `toLabel := maxAutomergePRs - len(automergePRs)`
and the `if toLabel > 0` block. -/
def promote {σ Out : Type} (h : Host σ Out) (repo : String)
    (pendingPRs automergePRs : List pullRequest) (w : σ) : Run σ Status :=
  let toLabel : Int := maxAutomergePRs - automergePRs.length
  if toLabel > 0 then
    let toLabel := min toLabel pendingPRs.length
    labelLoop h repo pendingPRs toLabel.toNat 0 w
  else
    ⟨Status.running, w, []⟩

/-- One pass through the body of `for { ... }` in `main`.  `Status.running`
means the body reached its end and the loop goes round again; `break` is
followed by the return of `main`, that is exit code 0. -/
def cycle {σ Out : Type} (h : Host σ Out) (repo : String) (w : σ) : Run σ Status :=
  let f := fetchPRsByLabel h repo ["autorelease: pending"] w
  match f.value with
  | Except.error err =>
    ⟨Status.exited 1, f.state, f.trace ++ [Event.fatalf ("Failed to get pending PRs: " ++ err)]⟩
  | Except.ok resp =>
    let pendingPRs := eligible resp
    if pendingPRs.length = 0 then
      ⟨Status.exited 0, f.state, f.trace ++ [Event.stdout "No more pending PRs.\n"]⟩
    else
      let report1 := Event.stdout ("Found " ++ Itoa pendingPRs.length ++ " pending PRs:\n")
        :: pendingPRs.map reportLine ++ [Event.stdout "\n"]
      let g := fetchPRsByLabel h repo ["autorelease: pending", "automerge"] f.state
      match g.value with
      | Except.error err =>
        ⟨Status.exited 1, g.state,
          f.trace ++ report1 ++ g.trace ++ [Event.fatalf ("Failed to get automerge PRs: " ++ err)]⟩
      | Except.ok automergePRs =>
        let report2 := Event.stdout ("Found " ++ Itoa automergePRs.length ++ " PRs in automerge:\n")
          :: automergePRs.map reportLine ++ [Event.stdout "\n"]
        let p := promote h repo pendingPRs automergePRs g.state
        match p.value with
        | Status.running =>
          ⟨Status.running, p.state, f.trace ++ report1 ++ g.trace ++ report2 ++ p.trace ++
            [Event.stdout "Waiting for merges.\n", Event.sleep 5]⟩
        | st => ⟨st, p.state, f.trace ++ report1 ++ g.trace ++ report2 ++ p.trace⟩

/-- The loop `for { ... }` of `main`, run for at most `fuel` passes.  The
result is `Status.running` when the loop is still going after `fuel` passes. -/
def mainLoop {σ Out : Type} (h : Host σ Out) (repo : String) : Nat → σ → Run σ Status
  | 0, w => ⟨Status.running, w, []⟩
  | fuel + 1, w =>
    let c := cycle h repo w
    match c.value with
    | Status.running =>
      let r := mainLoop h repo fuel c.state
      ⟨r.value, r.state, c.trace ++ r.trace⟩
    | st => ⟨st, c.state, c.trace⟩

/-- The function `main`, given `os.Args`. -/
def main {σ Out : Type} (h : Host σ Out) (osArgs : List String) (fuel : Nat) (w : σ) :
    Run σ Status :=
  if osArgs.length ≠ 2 then
    match osArgs[0]? with
    | none => ⟨Status.panicked, w, []⟩
    | some name => ⟨Status.exited 1, w, [Event.fatalf ("Usage: " ++ name ++ " <repo>")]⟩
  else
    match osArgs[1]? with
    | none => ⟨Status.panicked, w, []⟩
    | some repo => mainLoop h repo fuel w

/-! ## Vocabulary of the statements -/

/-- The test a PR passes in the body of the filter loop: the title has the
release marker and no label is an exclusion label. -/
def keep (pr : pullRequest) : Bool :=
  HasPrefix pr.Title "chore(main): Release plugins-" && !ContainsFunc pr.Labels excludedLabel

/-- The command line of a list query, as the hosting tool documents it:
`pr list --repo R --limit 100`, one `--label L` per label, `--json FIELDS`. -/
def listArgs (repo : String) (labels : List String) : List String :=
  ["pr", "list", "--repo", repo, "--limit", "100"] ++
    labels.flatMap (fun l => ["--label", l]) ++ ["--json", "id,number,title,labels"]

/-- The command line that adds label `l` to PR number `n` of `repo`. -/
def addLabelArgs (n : Int) (repo l : String) : List String :=
  ["pr", "edit", Itoa n, "--repo", repo, "--add-label", l]

/-- The arguments of the `gh` runs of a trace, in order. -/
def execCalls : List Event → List (List String)
  | [] => []
  | Event.exec args :: rest => args :: execCalls rest
  | _ :: rest => execCalls rest

/-- The three events of one successful round of the label loop on `pr`. -/
def labelEvents (repo : String) (pr : pullRequest) : List Event :=
  [Event.logPrintf ("Labeling PR #" ++ Itoa pr.Number ++ ": " ++ pr.Title ++ " with automerge.\n"),
   Event.exec (addLabelArgs pr.Number repo "automerge"),
   Event.stdout ("Labeled PR #" ++ Itoa pr.Number ++ ": " ++ pr.Title ++ " with automerge.\n")]

/-- The three events of the round of the label loop in which the call on `pr`
fails with `err`. -/
def failEvents (repo : String) (pr : pullRequest) (err : String) : List Event :=
  [Event.logPrintf ("Labeling PR #" ++ Itoa pr.Number ++ ": " ++ pr.Title ++ " with automerge.\n"),
   Event.exec (addLabelArgs pr.Number repo "automerge"),
   Event.fatalf
     ("Failed to label PR #%!s(int=" ++ Itoa pr.Number ++ "): " ++ pr.Title ++ " = " ++ err)]

/-- The body of the label loop applied to the PRs of a list, one after the
other, up to the first failure.  `labelLoop_eq_labelAll` relates it to the
index loop of the source. -/
def labelAll {σ Out : Type} (h : Host σ Out) (repo : String) :
    List pullRequest → σ → Run σ Status
  | [], w => ⟨Status.running, w, []⟩
  | pr :: rest, w =>
    match (pr.Label h repo "automerge" w).value with
    | some err => ⟨Status.exited 1, (pr.Label h repo "automerge" w).state, failEvents repo pr err⟩
    | none =>
      let r := labelAll h repo rest (pr.Label h repo "automerge" w).state
      ⟨r.value, r.state, labelEvents repo pr ++ r.trace⟩

/-- Whether the tool answers without error to the add-label command of every
PR of the list, each command run in the world the earlier ones left.  It
speaks of the tool only, not of the program. -/
def addLabelsSucceed {σ Out : Type} (h : Host σ Out) (repo : String) :
    List pullRequest → σ → Bool
  | [], _ => true
  | pr :: rest, w =>
    (h.gh ["pr", "edit", Itoa pr.Number, "--repo", repo, "--add-label", "automerge"]
        w).1.2.isNone &&
      addLabelsSucceed h repo rest
        (h.gh ["pr", "edit", Itoa pr.Number, "--repo", repo, "--add-label", "automerge"] w).2

/-- The world after the tool ran the add-label command of every PR of the
list, in order.  It speaks of the tool only, not of the program. -/
def afterAddLabels {σ Out : Type} (h : Host σ Out) (repo : String) :
    List pullRequest → σ → σ
  | [], w => w
  | pr :: rest, w =>
    afterAddLabels h repo rest
      (h.gh ["pr", "edit", Itoa pr.Number, "--repo", repo, "--add-label", "automerge"] w).2

/-- The events of a cycle before the promotion step: the pending query, its
report, the automerge query, its report. -/
def cycleHead (repo : String) (pendingPRs automergePRs : List pullRequest) : List Event :=
  [Event.exec (listArgs repo ["autorelease: pending"])] ++
    (Event.stdout ("Found " ++ Itoa pendingPRs.length ++ " pending PRs:\n")
      :: pendingPRs.map reportLine ++ [Event.stdout "\n"]) ++
    [Event.exec (listArgs repo ["autorelease: pending", "automerge"])] ++
    (Event.stdout ("Found " ++ Itoa automergePRs.length ++ " PRs in automerge:\n")
      :: automergePRs.map reportLine ++ [Event.stdout "\n"])

/-- The number a string of decimal digits stands for, read left to right
from the value `acc` of the digits already read. -/
def digitsValue (cs : List Char) (acc : Nat) : Nat :=
  cs.foldl (fun a c => 10 * a + (c.toNat - 48)) acc

/-! ## A model of the remote

The hosting platform as the ceiling invariant sees it: a list of PRs that the
list query reads and the add-label command changes. -/

/-- Whether a PR carries a label of that name. -/
def carries (pr : pullRequest) (name : String) : Bool :=
  pr.Labels.any (fun l => l.Name == name)

/-- A PR that is queued for merge: it carries both "autorelease: pending" and
"automerge". -/
def queued (pr : pullRequest) : Bool :=
  carries pr "autorelease: pending" && carries pr "automerge"

/-- The values of the leading `--label VALUE` pairs of a command line. -/
def labelValues : List String → List String
  | flag :: value :: rest => if flag = "--label" then value :: labelValues rest else []
  | _ => []

/-- Adding label `l` to the PR whose number prints as `num`: that PR gains
the label unless it carries it already, every other PR is left as it is. -/
def withLabel (num l : String) (pr : pullRequest) : pullRequest :=
  if Itoa pr.Number = num ∧ carries pr l = false then
    { pr with Labels := pr.Labels ++ [⟨"LA_" ++ l, l⟩] }
  else pr

/-- The state of the model remote: the PRs of the repository, and for each
coming run of the tool whether it fails (`true`); past the end of that list
no run fails. -/
structure Remote where
  prs : List pullRequest
  failures : List Bool
deriving DecidableEq, Repr

/-- The tool run against the model remote.  A run marked as failing returns an
error and changes no PR.  A list query answers with the first 100 PRs that
carry every given label and changes no PR.  An add-label command changes the
PR of that number.  Anything else is an error. -/
def Remote.gh (args : List String) (r : Remote) :
    (List pullRequest × Option String) × Remote :=
  match r.failures with
  | true :: later => (([], some "exit status 1"), ⟨r.prs, later⟩)
  | _ =>
    match args with
    | "pr" :: "list" :: "--repo" :: _ :: "--limit" :: "100" :: more =>
      (((r.prs.filter (fun pr => (labelValues more).all (carries pr))).take 100, none),
        ⟨r.prs, r.failures.tail⟩)
    | ["pr", "edit", num, "--repo", _, "--add-label", l] =>
      (([], none), ⟨r.prs.map (withLabel num l), r.failures.tail⟩)
    | _ => (([], some "exit status 1"), ⟨r.prs, r.failures.tail⟩)

/-- The model remote as a host; the tool output is the PR list itself. -/
def remoteHost : Host Remote (List pullRequest) :=
  ⟨Remote.gh, Except.ok⟩

/-! ## Scenarios -/

/-- Scenario D, first PR: a plugin release without exclusion label. -/
def scenarioFoo : pullRequest :=
  ⟨"PR_1", 1, "chore(main): Release plugins-foo", [⟨"L_1", "autorelease: pending"⟩]⟩

/-- Scenario D, second PR: a release of another family. -/
def scenarioCore : pullRequest :=
  ⟨"PR_2", 2, "chore(main): Release core-foo", [⟨"L_1", "autorelease: pending"⟩]⟩

/-- Scenario D, third PR: a plugin release marked `wip`. -/
def scenarioBar : pullRequest :=
  ⟨"PR_3", 3, "chore(main): Release plugins-bar",
    [⟨"L_1", "autorelease: pending"⟩, ⟨"L_2", "wip"⟩]⟩

/-- A plugin release PR with the given number and label names. -/
def releasePR (n : Int) (labels : List String) : pullRequest :=
  ⟨"PR_" ++ Itoa n, n, "chore(main): Release plugins-p" ++ Itoa n,
    labels.map (fun l => ⟨"LA_" ++ l, l⟩)⟩

/-- Scenario A: seven pending plugin releases, none queued. -/
def scenarioA : List pullRequest :=
  [releasePR 1 ["autorelease: pending"], releasePR 2 ["autorelease: pending"],
   releasePR 3 ["autorelease: pending"], releasePR 4 ["autorelease: pending"],
   releasePR 5 ["autorelease: pending"], releasePR 6 ["autorelease: pending"],
   releasePR 7 ["autorelease: pending"]]

/-- Scenario B: four queued plugin releases and three eligible ones. -/
def scenarioB : List pullRequest :=
  [releasePR 1 ["autorelease: pending", "automerge"],
   releasePR 2 ["autorelease: pending", "automerge"],
   releasePR 3 ["autorelease: pending", "automerge"],
   releasePR 4 ["autorelease: pending", "automerge"],
   releasePR 5 ["autorelease: pending"], releasePR 6 ["autorelease: pending"],
   releasePR 7 ["autorelease: pending"]]

/-- Scenario C: five queued plugin releases and three eligible ones. -/
def scenarioC : List pullRequest :=
  [releasePR 1 ["autorelease: pending", "automerge"],
   releasePR 2 ["autorelease: pending", "automerge"],
   releasePR 3 ["autorelease: pending", "automerge"],
   releasePR 4 ["autorelease: pending", "automerge"],
   releasePR 5 ["autorelease: pending", "automerge"],
   releasePR 6 ["autorelease: pending"], releasePR 7 ["autorelease: pending"],
   releasePR 8 ["autorelease: pending"]]

/-! ## The eligibility filter -/

theorem pendingLoop_eq (resp acc : List pullRequest) :
    pendingLoop resp acc = acc ++ resp.filter keep := by
  induction resp generalizing acc with
  | nil => simp [pendingLoop]
  | cons pr rest ih =>
    unfold pendingLoop
    by_cases hp : HasPrefix pr.Title "chore(main): Release plugins-" = true
    · by_cases hl : ContainsFunc pr.Labels excludedLabel = true
      · simp [hp, hl, ih, keep]
      · simp [hp, hl, ih, keep]
    · simp [hp, ih, keep]

theorem eligible_eq (resp : List pullRequest) : eligible resp = resp.filter keep := by
  simp [eligible, pendingLoop_eq]

theorem excludedLabel_iff (l : label) :
    excludedLabel l = true ↔
      l.Name = "wip" ∨ l.Name = "automerge" ∨ l.Name = "no automerge" := by
  unfold excludedLabel Contains
  simp only [List.any_cons, List.any_nil, Bool.or_false, Bool.or_eq_true, beq_iff_eq]
  constructor <;> (intro h; rcases h with h | h | h <;> simp [h])

theorem keep_iff (pr : pullRequest) :
    keep pr = true ↔
      HasPrefix pr.Title "chore(main): Release plugins-" = true ∧
        ∀ l ∈ pr.Labels,
          l.Name ≠ "wip" ∧ l.Name ≠ "automerge" ∧ l.Name ≠ "no automerge" := by
  simp only [keep, ContainsFunc, Bool.and_eq_true, Bool.not_eq_true', List.any_eq_false,
    excludedLabel_iff, not_or]

/-- C1: a PR is in the eligible list built by the filter loop of `main` exactly
when it is in the answer of the pending query, its title starts with
"chore(main): Release plugins-", and none of its labels is named "wip",
"automerge" or "no automerge".  The order of the two tests does not matter:
the list is the answer filtered by title then by labels, and also by labels
then by title.  In scenario D the plugin release without exclusion label is
kept, the core release and the `wip` one are dropped. -/
theorem C1_eligible_membership :
    (∀ (resp : List pullRequest) (pr : pullRequest),
      pr ∈ eligible resp ↔
        pr ∈ resp ∧ HasPrefix pr.Title "chore(main): Release plugins-" = true ∧
          ∀ l ∈ pr.Labels,
            l.Name ≠ "wip" ∧ l.Name ≠ "automerge" ∧ l.Name ≠ "no automerge") ∧
    (∀ resp : List pullRequest,
      eligible resp =
          (resp.filter (fun pr => HasPrefix pr.Title "chore(main): Release plugins-")).filter
            (fun pr => !ContainsFunc pr.Labels excludedLabel) ∧
        eligible resp =
          (resp.filter (fun pr => !ContainsFunc pr.Labels excludedLabel)).filter
            (fun pr => HasPrefix pr.Title "chore(main): Release plugins-")) ∧
    eligible [scenarioFoo, scenarioCore, scenarioBar] = [scenarioFoo] := by
  refine ⟨?_, ?_, by decide⟩
  · intro resp pr
    rw [eligible_eq, List.mem_filter, keep_iff]
  · intro resp
    rw [eligible_eq, List.filter_filter, List.filter_filter]
    constructor
    · apply List.filter_congr
      intro pr _
      simp only [keep, Bool.and_comm]
    · rfl

/-- C5: the eligible list is a subsequence of the answer of the pending query
(same relative order, nothing added), and every retained PR occurs in it as
often as in the answer. -/
theorem C5_eligible_sublist (resp : List pullRequest) :
    (eligible resp).Sublist resp ∧
      ∀ pr ∈ eligible resp, (eligible resp).count pr = resp.count pr := by
  rw [eligible_eq]
  refine ⟨List.filter_sublist _, ?_⟩
  intro pr hpr
  rw [List.count_filter]
  exact (List.mem_filter.1 hpr).2

/-- C8: running the eligibility filter on its own output changes nothing. -/
theorem C8_eligible_idempotent (l : List pullRequest) :
    eligible (eligible l) = eligible l := by
  simp [eligible_eq]

/-! ## The query command line -/

theorem appendLabels_eq (params labels : List String) :
    appendLabels params labels = params ++ labels.flatMap (fun l => ["--label", l]) := by
  induction labels generalizing params with
  | nil => simp [appendLabels]
  | cons l rest ih => simp [appendLabels, ih]

theorem fetchPRsByLabel_eq {σ Out : Type} (h : Host σ Out) (repo : String)
    (labels : List String) (w : σ) :
    fetchPRsByLabel h repo labels w =
      ⟨match (h.gh (listArgs repo labels) w).1.2 with
        | some err => Except.error err
        | none => h.Unmarshal (h.gh (listArgs repo labels) w).1.1,
       (h.gh (listArgs repo labels) w).2, [Event.exec (listArgs repo labels)]⟩ := by
  simp only [fetchPRsByLabel, executeCommand, appendLabels_eq, listArgs]
  cases (h.gh _ w).1.2 with
  | some err => rfl
  | none =>
    simp only
    cases h.Unmarshal (h.gh _ w).1.1 <;> rfl

/-- C10: `fetchPRsByLabel` runs the external command exactly once, with the
arguments `pr list --repo repo --limit 100`, then one `--label name` pair per
given label in the given order, then `--json id,number,title,labels`; its
result is the error of that run or else the decoding of its output; and
`fetchPRs` is the same function. -/
theorem C10_fetch_arguments {σ Out : Type} (h : Host σ Out) (repo : String)
    (labels : List String) (w : σ) :
    (fetchPRsByLabel h repo labels w).trace =
        [Event.exec (["pr", "list", "--repo", repo, "--limit", "100"] ++
          labels.flatMap (fun l => ["--label", l]) ++ ["--json", "id,number,title,labels"])] ∧
      (fetchPRsByLabel h repo labels w).state =
        (h.gh (["pr", "list", "--repo", repo, "--limit", "100"] ++
          labels.flatMap (fun l => ["--label", l]) ++ ["--json", "id,number,title,labels"]) w).2 ∧
      (fetchPRsByLabel h repo labels w).value =
        (match (h.gh (["pr", "list", "--repo", repo, "--limit", "100"] ++
            labels.flatMap (fun l => ["--label", l]) ++
            ["--json", "id,number,title,labels"]) w).1.2 with
          | some err => Except.error err
          | none => h.Unmarshal (h.gh (["pr", "list", "--repo", repo, "--limit", "100"] ++
            labels.flatMap (fun l => ["--label", l]) ++
            ["--json", "id,number,title,labels"]) w).1.1) ∧
      fetchPRs h repo labels w = fetchPRsByLabel h repo labels w := by
  refine ⟨?_, ?_, ?_, rfl⟩
  · rw [fetchPRsByLabel_eq]; rfl
  · rw [fetchPRsByLabel_eq]; rfl
  · rw [fetchPRsByLabel_eq]; rfl

/-! ## Decimal rendering -/

theorem digitChar_value (d : Nat) (hd : d < 10) : (Nat.digitChar d).toNat - 48 = d := by
  interval_cases d <;> rfl

theorem digitChar_ne_minus (d : Nat) (hd : d < 10) : Nat.digitChar d ≠ '-' := by
  interval_cases d <;> decide

theorem toDigitsCore_value (fuel : Nat) : ∀ (n : Nat) (ds : List Char), n < fuel →
    digitsValue (Nat.toDigitsCore 10 fuel n ds) 0 = digitsValue ds n := by
  induction fuel with
  | zero => intro n ds h; omega
  | succ fuel ih =>
    intro n ds h
    unfold Nat.toDigitsCore
    by_cases h0 : n / 10 = 0
    · simp only [h0, if_true]
      have hn : n % 10 = n := by omega
      have hv := digitChar_value (n % 10) (Nat.mod_lt _ (by norm_num))
      rw [hn] at hv
      simp only [digitsValue, List.foldl_cons, hn, hv, Nat.mul_zero, Nat.zero_add]
    · simp only [h0, if_false]
      rw [ih (n / 10) _ (by omega)]
      simp only [digitsValue, List.foldl_cons, digitChar_value (n % 10) (Nat.mod_lt _ (by norm_num))]
      congr 1
      omega

theorem toDigits_value (n : Nat) : digitsValue (Nat.toDigits 10 n) 0 = n := by
  unfold Nat.toDigits
  rw [toDigitsCore_value (n + 1) n [] (by omega)]
  rfl

theorem toDigitsCore_head (fuel : Nat) : ∀ (n : Nat) (ds : List Char),
    (Nat.toDigitsCore 10 (fuel + 1) n ds).head? ≠ some '-' := by
  induction fuel with
  | zero =>
    intro n ds
    unfold Nat.toDigitsCore
    by_cases h0 : n / 10 = 0
    · simp [h0, digitChar_ne_minus (n % 10) (Nat.mod_lt _ (by norm_num))]
    · simp [h0, Nat.toDigitsCore, digitChar_ne_minus (n % 10) (Nat.mod_lt _ (by norm_num))]
  | succ fuel ih =>
    intro n ds
    rw [Nat.toDigitsCore]
    by_cases h0 : n / 10 = 0
    · simp [h0, digitChar_ne_minus (n % 10) (Nat.mod_lt _ (by norm_num))]
    · simp only [h0, if_false]
      exact ih _ _

theorem Itoa_injective : Function.Injective Itoa := by
  intro a b hab
  have hd := congrArg String.data hab
  cases a with
  | ofNat m =>
    cases b with
    | ofNat k =>
      simp only [Itoa] at hd
      have := congrArg (fun l => digitsValue l 0) hd
      simp only [toDigits_value] at this
      rw [this]
    | negSucc k =>
      simp only [Itoa] at hd
      exfalso
      have h := toDigitsCore_head m m []
      unfold Nat.toDigits at hd
      rw [hd] at h
      simp at h
  | negSucc m =>
    cases b with
    | ofNat k =>
      simp only [Itoa] at hd
      exfalso
      have h := toDigitsCore_head k k []
      unfold Nat.toDigits at hd
      rw [← hd] at h
      simp at h
    | negSucc k =>
      simp only [Itoa, List.cons.injEq, true_and] at hd
      have := congrArg (fun l => digitsValue l 0) hd
      simp only [toDigits_value] at this
      have : m = k := by omega
      rw [this]

/-! ## The label loop and the cycle -/

theorem Label_trace {σ Out : Type} (h : Host σ Out) (repo l : String) (pr : pullRequest) (w : σ) :
    (pr.Label h repo l w).trace = [Event.exec (addLabelArgs pr.Number repo l)] := rfl

theorem labelLoop_eq_labelAll {σ Out : Type} (h : Host σ Out) (repo : String)
    (pendingPRs : List pullRequest) (k : Nat) : ∀ (i : Nat) (w : σ),
    i + k ≤ pendingPRs.length →
    labelLoop h repo pendingPRs k i w = labelAll h repo ((pendingPRs.drop i).take k) w := by
  induction k with
  | zero => intro i w _; simp [labelLoop, labelAll]
  | succ k ih =>
    intro i w hik
    have hi : i < pendingPRs.length := by omega
    rw [labelLoop, List.getElem?_eq_getElem hi]
    rw [List.drop_eq_getElem_cons hi, List.take_succ_cons, labelAll]
    simp only
    cases hv : (pendingPRs[i].Label h repo "automerge" w).value with
    | some err => simp [failEvents, Label_trace]
    | none =>
      simp only
      rw [ih (i + 1) _ (by omega)]
      simp [labelEvents, Label_trace]



theorem promote_eq {σ Out : Type} (h : Host σ Out) (repo : String)
    (pendingPRs automergePRs : List pullRequest) (w : σ) :
    promote h repo pendingPRs automergePRs w =
      labelAll h repo (pendingPRs.take (5 - automergePRs.length)) w := by
  unfold promote maxAutomergePRs
  by_cases hq : (5 : Int) - (automergePRs.length : Int) > 0
  · simp only [hq, if_true]
    have hk : (min ((5 : Int) - (automergePRs.length : Int)) (pendingPRs.length : Int)).toNat
        = min (5 - automergePRs.length) pendingPRs.length := by omega
    rw [hk, labelLoop_eq_labelAll h repo pendingPRs _ 0 w (by omega)]
    congr 1
    rw [List.drop_zero]
    by_cases hle : 5 - automergePRs.length ≤ pendingPRs.length
    · rw [Nat.min_eq_left hle]
    · rw [Nat.min_eq_right (by omega), List.take_of_length_le (Nat.le_refl _),
        List.take_of_length_le (by omega)]
  · simp only [hq, if_false]
    have hk : 5 - automergePRs.length = 0 := by omega
    simp [hk, labelAll]

theorem labelAll_append {σ Out : Type} (h : Host σ Out) (repo : String)
    (a b : List pullRequest) : ∀ (w : σ),
    (labelAll h repo a w).value = Status.running →
    labelAll h repo (a ++ b) w =
      ⟨(labelAll h repo b (labelAll h repo a w).state).value,
       (labelAll h repo b (labelAll h repo a w).state).state,
       (labelAll h repo a w).trace ++ (labelAll h repo b (labelAll h repo a w).state).trace⟩ := by
  induction a with
  | nil => intro w _; simp [labelAll]
  | cons pr rest ih =>
    intro w hrun
    rw [labelAll] at hrun
    rw [List.cons_append, labelAll, labelAll]
    cases hv : (pr.Label h repo "automerge" w).value with
    | some err => rw [hv] at hrun; simp at hrun
    | none =>
      rw [hv] at hrun
      simp only at hrun ⊢
      rw [ih _ hrun]
      simp

theorem labelAll_running {σ Out : Type} (h : Host σ Out) (repo : String)
    (sel : List pullRequest) : ∀ (w : σ),
    (labelAll h repo sel w).value = Status.running →
    (labelAll h repo sel w).trace = sel.flatMap (labelEvents repo) := by
  induction sel with
  | nil => intro w _; simp [labelAll]
  | cons pr rest ih =>
    intro w hrun
    rw [labelAll] at hrun ⊢
    cases hv : (pr.Label h repo "automerge" w).value with
    | some err => rw [hv] at hrun; simp at hrun
    | none =>
      rw [hv] at hrun
      simp only at hrun ⊢
      rw [ih _ hrun]
      simp

theorem labelAll_fail {σ Out : Type} (h : Host σ Out) (repo : String)
    (a b : List pullRequest) (pr : pullRequest) (err : String) (w : σ)
    (hrun : (labelAll h repo a w).value = Status.running)
    (hfail : (pr.Label h repo "automerge" (labelAll h repo a w).state).value = some err) :
    labelAll h repo (a ++ pr :: b) w =
      ⟨Status.exited 1, (pr.Label h repo "automerge" (labelAll h repo a w).state).state,
        a.flatMap (labelEvents repo) ++ failEvents repo pr err⟩ := by
  rw [labelAll_append h repo a (pr :: b) w hrun, labelAll_running h repo a w hrun]
  simp [labelAll, hfail]

theorem execCalls_append (s t : List Event) : execCalls (s ++ t) = execCalls s ++ execCalls t := by
  induction s with
  | nil => rfl
  | cons e rest ih => cases e <;> simp [execCalls, ih]

theorem execCalls_labelEvents (repo : String) (sel : List pullRequest) :
    execCalls (sel.flatMap (labelEvents repo)) =
      sel.map (fun pr => addLabelArgs pr.Number repo "automerge") := by
  induction sel with
  | nil => rfl
  | cons pr rest ih =>
    rw [List.flatMap_cons, execCalls_append, ih]
    simp [labelEvents, execCalls]

theorem labelAll_calls {σ Out : Type} (h : Host σ Out) (repo : String)
    (sel : List pullRequest) : ∀ (w : σ),
    ∃ j, j ≤ sel.length ∧
      execCalls (labelAll h repo sel w).trace =
        (sel.take j).map (fun pr => addLabelArgs pr.Number repo "automerge") := by
  induction sel with
  | nil => intro w; exact ⟨0, by simp [labelAll, execCalls]⟩
  | cons pr rest ih =>
    intro w
    rw [labelAll]
    cases hv : (pr.Label h repo "automerge" w).value with
    | some err => exact ⟨1, by simp [failEvents, execCalls]⟩
    | none =>
      obtain ⟨j, hj, hcalls⟩ := ih (pr.Label h repo "automerge" w).state
      refine ⟨j + 1, by simp [hj], ?_⟩
      simp [execCalls_append, hcalls, labelEvents, execCalls]

theorem fetch_state {σ Out : Type} (h : Host σ Out) (repo : String)
    (labels : List String) (w : σ) :
    (fetchPRsByLabel h repo labels w).state = (h.gh (listArgs repo labels) w).2 := by
  rw [fetchPRsByLabel_eq]

theorem fetch_trace {σ Out : Type} (h : Host σ Out) (repo : String)
    (labels : List String) (w : σ) :
    (fetchPRsByLabel h repo labels w).trace = [Event.exec (listArgs repo labels)] := by
  rw [fetchPRsByLabel_eq]

theorem cycle_pending_error {σ Out : Type} (h : Host σ Out) (repo : String) (w : σ)
    (err : String)
    (hpend : (fetchPRsByLabel h repo ["autorelease: pending"] w).value = Except.error err) :
    cycle h repo w = ⟨Status.exited 1, (h.gh (listArgs repo ["autorelease: pending"]) w).2,
      [Event.exec (listArgs repo ["autorelease: pending"]),
        Event.fatalf ("Failed to get pending PRs: " ++ err)]⟩ := by
  simp only [cycle, hpend, fetch_state, fetch_trace]
  rfl

theorem cycle_empty {σ Out : Type} (h : Host σ Out) (repo : String) (w : σ)
    (resp : List pullRequest)
    (hpend : (fetchPRsByLabel h repo ["autorelease: pending"] w).value = Except.ok resp)
    (hnil : eligible resp = []) :
    cycle h repo w = ⟨Status.exited 0, (h.gh (listArgs repo ["autorelease: pending"]) w).2,
      [Event.exec (listArgs repo ["autorelease: pending"]),
        Event.stdout "No more pending PRs.\n"]⟩ := by
  simp only [cycle, hpend, fetch_state, fetch_trace, hnil]
  rfl

theorem cycle_automerge_error {σ Out : Type} (h : Host σ Out) (repo : String) (w : σ)
    (resp : List pullRequest) (err : String)
    (hpend : (fetchPRsByLabel h repo ["autorelease: pending"] w).value = Except.ok resp)
    (hne : eligible resp ≠ [])
    (ham : (fetchPRsByLabel h repo ["autorelease: pending", "automerge"]
      (h.gh (listArgs repo ["autorelease: pending"]) w).2).value = Except.error err) :
    cycle h repo w = ⟨Status.exited 1,
      (h.gh (listArgs repo ["autorelease: pending", "automerge"])
        (h.gh (listArgs repo ["autorelease: pending"]) w).2).2,
      [Event.exec (listArgs repo ["autorelease: pending"])] ++
        (Event.stdout ("Found " ++ Itoa (eligible resp).length ++ " pending PRs:\n")
          :: (eligible resp).map reportLine ++ [Event.stdout "\n"]) ++
        [Event.exec (listArgs repo ["autorelease: pending", "automerge"]),
          Event.fatalf ("Failed to get automerge PRs: " ++ err)]⟩ := by
  have hlen : ¬ (eligible resp).length = 0 := by
    intro h0; exact hne (List.length_eq_zero.1 h0)
  simp only [cycle, hpend, fetch_state, fetch_trace, hlen, if_false, ham]
  simp

theorem cycle_promote {σ Out : Type} (h : Host σ Out) (repo : String) (w : σ)
    (resp am : List pullRequest)
    (hpend : (fetchPRsByLabel h repo ["autorelease: pending"] w).value = Except.ok resp)
    (hne : eligible resp ≠ [])
    (ham : (fetchPRsByLabel h repo ["autorelease: pending", "automerge"]
      (h.gh (listArgs repo ["autorelease: pending"]) w).2).value = Except.ok am) :
    cycle h repo w =
      ⟨(promote h repo (eligible resp) am
          (h.gh (listArgs repo ["autorelease: pending", "automerge"])
            (h.gh (listArgs repo ["autorelease: pending"]) w).2).2).value,
       (promote h repo (eligible resp) am
          (h.gh (listArgs repo ["autorelease: pending", "automerge"])
            (h.gh (listArgs repo ["autorelease: pending"]) w).2).2).state,
       cycleHead repo (eligible resp) am ++
        (promote h repo (eligible resp) am
          (h.gh (listArgs repo ["autorelease: pending", "automerge"])
            (h.gh (listArgs repo ["autorelease: pending"]) w).2).2).trace ++
        (if (promote h repo (eligible resp) am
          (h.gh (listArgs repo ["autorelease: pending", "automerge"])
            (h.gh (listArgs repo ["autorelease: pending"]) w).2).2).value = Status.running
          then [Event.stdout "Waiting for merges.\n", Event.sleep 5] else [])⟩ := by
  have hlen : ¬ (eligible resp).length = 0 := by
    intro h0; exact hne (List.length_eq_zero.1 h0)
  simp only [cycle, hpend, fetch_state, fetch_trace, hlen, if_false, ham]
  rcases hv : (promote h repo (eligible resp) am
          (h.gh (listArgs repo ["autorelease: pending", "automerge"])
            (h.gh (listArgs repo ["autorelease: pending"]) w).2).2).value with _ | code | _
  · simp [cycleHead]
  · simp [cycleHead]
  · simp [cycleHead]


/-! ## The main loop -/

theorem mainLoop_stop {σ Out : Type} (h : Host σ Out) (repo : String) (fuel : Nat) (w : σ)
    (hstop : (cycle h repo w).value ≠ Status.running) :
    mainLoop h repo (fuel + 1) w = cycle h repo w := by
  rw [mainLoop]
  cases hv : (cycle h repo w).value with
  | running => exact absurd hv hstop
  | exited code => simp only; rw [← hv]
  | panicked => simp only; rw [← hv]

theorem main_eq {σ Out : Type} (h : Host σ Out) (name repo : String) (fuel : Nat) (w : σ) :
    main h [name, repo] fuel w = mainLoop h repo fuel w := by
  simp [main]

theorem mem_execCalls (args : List String) (t : List Event) :
    args ∈ execCalls t ↔ Event.exec args ∈ t := by
  induction t with
  | nil => simp [execCalls]
  | cons e rest ih => cases e <;> simp [execCalls, ih]

theorem execCalls_cycleHead (repo : String) (pend am : List pullRequest) :
    execCalls (cycleHead repo pend am) =
      [listArgs repo ["autorelease: pending"],
        listArgs repo ["autorelease: pending", "automerge"]] := by
  have hrep : ∀ l : List pullRequest, execCalls (l.map reportLine) = [] := by
    intro l
    induction l with
    | nil => rfl
    | cons p rest ih => simp [reportLine, execCalls, ih]
  simp [cycleHead, execCalls_append, execCalls, hrep]

theorem labelAll_succeed {σ Out : Type} (h : Host σ Out) (repo : String)
    (sel : List pullRequest) : ∀ w : σ, addLabelsSucceed h repo sel w = true →
      labelAll h repo sel w =
        ⟨Status.running, afterAddLabels h repo sel w, sel.flatMap (labelEvents repo)⟩ := by
  induction sel with
  | nil => intro w _; rfl
  | cons pr rest ih =>
    intro w hs
    rw [addLabelsSucceed, Bool.and_eq_true, Option.isNone_iff_eq_none] at hs
    have hv : (pr.Label h repo "automerge" w).value = none := hs.1
    have hst : (pr.Label h repo "automerge" w).state =
        (h.gh ["pr", "edit", Itoa pr.Number, "--repo", repo, "--add-label", "automerge"] w).2 :=
      rfl
    rw [labelAll, hv]
    simp only
    rw [hst, ih _ hs.2, afterAddLabels, List.flatMap_cons]

theorem labelAll_running_iff {σ Out : Type} (h : Host σ Out) (repo : String)
    (sel : List pullRequest) : ∀ w : σ,
      (labelAll h repo sel w).value = Status.running ↔
        addLabelsSucceed h repo sel w = true := by
  induction sel with
  | nil => intro w; simp [labelAll, addLabelsSucceed]
  | cons pr rest ih =>
    intro w
    have hval : (pr.Label h repo "automerge" w).value =
        (h.gh ["pr", "edit", Itoa pr.Number, "--repo", repo, "--add-label", "automerge"]
          w).1.2 := rfl
    have hst : (pr.Label h repo "automerge" w).state =
        (h.gh ["pr", "edit", Itoa pr.Number, "--repo", repo, "--add-label", "automerge"] w).2 :=
      rfl
    rw [labelAll, addLabelsSucceed, Bool.and_eq_true, Option.isNone_iff_eq_none, ← hval, ← hst]
    cases hv : (pr.Label h repo "automerge" w).value with
    | some err => simp
    | none => simp [ih]

theorem take_budget (l : List pullRequest) (q : Nat) :
    l.take (min ((5 : Int) - q).toNat l.length) = l.take (5 - q) := by
  have hk : ((5 : Int) - q).toNat = 5 - q := by omega
  rw [hk]
  by_cases hle : 5 - q ≤ l.length
  · rw [Nat.min_eq_left hle]
  · rw [Nat.min_eq_right (by omega), List.take_of_length_le (Nat.le_refl _),
      List.take_of_length_le (by omega)]

set_option maxRecDepth 100000 in
/-- C2: with ceiling 5 and budget `5 - alreadyQueued`, the promotion step does
nothing when the budget is not positive.  When it is positive, let the selected
PRs be the first `min(budget, len(eligible))` of the eligible list.  The step
ends without a fatal error exactly when the tool fails on none of their
add-label commands, run in that order; and then the step is exactly this: the
tool has run the add-label command of each selected PR, in the order of the
list, and the events are, for each of them in turn, the announcement, the
add-label command and the success line.  In scenario A (7 eligible, 0 queued)
the commands are the add-labels of PRs 1 to 5 and exactly these carry
"automerge" afterwards. -/
theorem C2_promotion_selects_first {σ Out : Type} (h : Host σ Out) (repo : String)
    (eligiblePRs automergePRs : List pullRequest) (w : σ) :
    ((5 : Int) - automergePRs.length ≤ 0 →
      promote h repo eligiblePRs automergePRs w = ⟨Status.running, w, []⟩) ∧
    (0 < (5 : Int) - automergePRs.length →
      ((promote h repo eligiblePRs automergePRs w).value = Status.running ↔
        addLabelsSucceed h repo
          (eligiblePRs.take (min ((5 : Int) - automergePRs.length).toNat eligiblePRs.length))
          w = true) ∧
      (addLabelsSucceed h repo
          (eligiblePRs.take (min ((5 : Int) - automergePRs.length).toNat eligiblePRs.length))
          w = true →
        promote h repo eligiblePRs automergePRs w =
          ⟨Status.running,
            afterAddLabels h repo
              (eligiblePRs.take
                (min ((5 : Int) - automergePRs.length).toNat eligiblePRs.length)) w,
            (eligiblePRs.take
              (min ((5 : Int) - automergePRs.length).toNat eligiblePRs.length)).flatMap
                (labelEvents repo)⟩)) ∧
    (execCalls (promote remoteHost "o/r" scenarioA [] ⟨scenarioA, []⟩).trace =
        [["pr", "edit", "1", "--repo", "o/r", "--add-label", "automerge"],
         ["pr", "edit", "2", "--repo", "o/r", "--add-label", "automerge"],
         ["pr", "edit", "3", "--repo", "o/r", "--add-label", "automerge"],
         ["pr", "edit", "4", "--repo", "o/r", "--add-label", "automerge"],
         ["pr", "edit", "5", "--repo", "o/r", "--add-label", "automerge"]] ∧
      (promote remoteHost "o/r" scenarioA [] ⟨scenarioA, []⟩).state.prs.map
          (fun p => (p.Number, carries p "automerge")) =
        [(1, true), (2, true), (3, true), (4, true), (5, true), (6, false), (7, false)]) := by
  rw [promote_eq, take_budget]
  refine ⟨?_, ?_, by decide, by decide⟩
  · intro hb
    have h0 : 5 - automergePRs.length = 0 := by omega
    simp [h0, labelAll]
  · intro _
    exact ⟨labelAll_running_iff h repo _ w, labelAll_succeed h repo _ w⟩

set_option maxRecDepth 100000 in
/-- Scenario A on the model remote: seven eligible PRs, none queued, no call
fails; the step is the labeling of exactly the first five, in order. -/
theorem C2_scenario_A :
    addLabelsSucceed remoteHost "o/r"
        (scenarioA.take (min ((5 : Int) - ([] : List pullRequest).length).toNat
          scenarioA.length)) ⟨scenarioA, []⟩ = true ∧
      promote remoteHost "o/r" scenarioA [] ⟨scenarioA, []⟩ =
        ⟨Status.running,
          afterAddLabels remoteHost "o/r"
            (scenarioA.take (min ((5 : Int) - ([] : List pullRequest).length).toNat
              scenarioA.length)) ⟨scenarioA, []⟩,
          (scenarioA.take (min ((5 : Int) - ([] : List pullRequest).length).toNat
            scenarioA.length)).flatMap (labelEvents "o/r")⟩ :=
  ⟨by decide,
    ((C2_promotion_selects_first remoteHost "o/r" scenarioA [] ⟨scenarioA, []⟩).2.1
      (by decide)).2 (by decide)⟩

set_option maxRecDepth 100000 in
/-- C4: whatever the outcomes of the calls, the promotion step issues add-label
commands for some `j` leading PRs of the eligible list and nothing else, where
`j` is at most `max(0, 5 - alreadyQueued)` and at most `len(eligible)`; with
five PRs already queued it does nothing at all, and in scenario C (3 eligible,
5 queued) the cycle runs the two queries only. -/
theorem C4_promotion_bounded {σ Out : Type} (h : Host σ Out) (repo : String)
    (eligiblePRs automergePRs : List pullRequest) (w : σ) :
    (∃ j : Nat,
      execCalls (promote h repo eligiblePRs automergePRs w).trace =
          (eligiblePRs.take j).map (fun pr => addLabelArgs pr.Number repo "automerge") ∧
        (j : Int) ≤ max 0 ((5 : Int) - automergePRs.length) ∧ j ≤ eligiblePRs.length) ∧
    ((execCalls (promote h repo eligiblePRs automergePRs w).trace).length : Int) ≤
      max 0 ((5 : Int) - automergePRs.length) ∧
    (execCalls (promote h repo eligiblePRs automergePRs w).trace).length ≤ eligiblePRs.length ∧
    (automergePRs.length = 5 → (promote h repo eligiblePRs automergePRs w).trace = []) ∧
    execCalls (cycle remoteHost "o/r" ⟨scenarioC, []⟩).trace =
      [listArgs "o/r" ["autorelease: pending"],
        listArgs "o/r" ["autorelease: pending", "automerge"]] := by
  rw [promote_eq]
  obtain ⟨j, hj, hcalls⟩ := labelAll_calls h repo (eligiblePRs.take (5 - automergePRs.length)) w
  rw [List.length_take] at hj
  have hjk : j ≤ 5 - automergePRs.length := le_trans hj (Nat.min_le_left _ _)
  have hjl : j ≤ eligiblePRs.length := le_trans hj (Nat.min_le_right _ _)
  rw [List.take_take, Nat.min_eq_left hjk] at hcalls
  refine ⟨⟨j, hcalls, by omega, hjl⟩, ?_, ?_, ?_, by decide⟩
  · rw [hcalls, List.length_map, List.length_take, Nat.min_eq_left hjl]; omega
  · rw [hcalls, List.length_map, List.length_take, Nat.min_eq_left hjl]; exact hjl
  · intro h5
    simp [h5, labelAll]

/-- C6: when the eligible list built from the answer of the pending query is
empty (the empty answer included), the run is over after that one query and
the completion message, with exit code 0: no label command, no automerge
query, no sleep, and no further cycle however long the loop is allowed to run. -/
theorem C6_empty_terminates {σ Out : Type} (h : Host σ Out) (name repo : String)
    (fuel : Nat) (w : σ) (resp : List pullRequest)
    (hpend : (fetchPRsByLabel h repo ["autorelease: pending"] w).value = Except.ok resp)
    (hnil : eligible resp = []) :
    main h [name, repo] (fuel + 1) w =
      ⟨Status.exited 0, (h.gh (listArgs repo ["autorelease: pending"]) w).2,
        [Event.exec (listArgs repo ["autorelease: pending"]),
          Event.stdout "No more pending PRs.\n"]⟩ := by
  have hc := cycle_empty h repo w resp hpend hnil
  rw [main_eq, mainLoop_stop h repo fuel w (by rw [hc]; simp), hc]

set_option maxRecDepth 100000 in
/-- Scenario E on the model remote: the pending list is empty. -/
theorem C6_scenario_E :
    main remoteHost ["automerger", "o/r"] 3 ⟨[], []⟩ =
      ⟨Status.exited 0, (remoteHost.gh (listArgs "o/r" ["autorelease: pending"]) ⟨[], []⟩).2,
        [Event.exec (listArgs "o/r" ["autorelease: pending"]),
          Event.stdout "No more pending PRs.\n"]⟩ :=
  C6_empty_terminates remoteHost "automerger" "o/r" 2 ⟨[], []⟩ [] (by rfl) (by decide)

theorem take_split {α : Type} (l : List α) (n i : Nat) (x : α) (hin : i < n)
    (hx : l[i]? = some x) :
    l.take n = l.take i ++ x :: (l.drop (i + 1)).take (n - i - 1) := by
  have hil : i < l.length := by
    rcases Nat.lt_or_ge i l.length with hlt | hge
    · exact hlt
    · rw [List.getElem?_eq_none hge] at hx; cases hx
  have hxi : l[i] = x := by
    rw [List.getElem?_eq_getElem hil] at hx
    exact Option.some.inj hx
  have hl : l = l.take i ++ x :: l.drop (i + 1) := by
    rw [← hxi, ← List.drop_eq_getElem_cons hil, List.take_append_drop]
  have hlen : (l.take i).length = i := by
    rw [List.length_take]; omega
  obtain ⟨k, hk⟩ : ∃ k, n - i = k + 1 := ⟨n - i - 1, by omega⟩
  have hk1 : n - i - 1 = k := by omega
  rw [hk1]
  conv_lhs => rw [hl]
  rw [List.take_append_eq_append_take, hlen, List.take_of_length_le (by omega), hk,
    List.take_succ_cons]

theorem take_succ_of_getElem {α : Type} (l : List α) (i : Nat) (x : α)
    (hx : l[i]? = some x) : l.take (i + 1) = l.take i ++ [x] := by
  rw [List.take_succ, hx]; rfl

theorem no_sleep_labelEvents (repo : String) (sel : List pullRequest) (m : Nat) :
    Event.sleep m ∉ sel.flatMap (labelEvents repo) := by
  simp [List.mem_flatMap, labelEvents]

theorem no_sleep_cycleHead (repo : String) (pend am : List pullRequest) (m : Nat) :
    Event.sleep m ∉ cycleHead repo pend am := by
  simp [cycleHead, reportLine]

theorem main_first_failure {σ Out : Type} (h : Host σ Out) (name repo : String)
    (fuel : Nat) (w w1 w2 : σ) (resp am : List pullRequest) (i : Nat) (pr : pullRequest)
    (err : String)
    (hpend : (fetchPRsByLabel h repo ["autorelease: pending"] w).value = Except.ok resp)
    (hw1 : (fetchPRsByLabel h repo ["autorelease: pending"] w).state = w1)
    (ham : (fetchPRsByLabel h repo ["autorelease: pending", "automerge"] w1).value =
      Except.ok am)
    (hw2 : (fetchPRsByLabel h repo ["autorelease: pending", "automerge"] w1).state = w2)
    (hi : (i : Int) < maxAutomergePRs - am.length)
    (hpr : (eligible resp)[i]? = some pr)
    (hsucc : (labelLoop h repo (eligible resp) i 0 w2).value = Status.running)
    (hfail : (pr.Label h repo "automerge"
      (labelLoop h repo (eligible resp) i 0 w2).state).value = some err) :
    main h [name, repo] (fuel + 1) w =
      ⟨Status.exited 1,
        (pr.Label h repo "automerge" (labelLoop h repo (eligible resp) i 0 w2).state).state,
        cycleHead repo (eligible resp) am ++
          ((eligible resp).take i).flatMap (labelEvents repo) ++ failEvents repo pr err⟩ := by
  have hil : i < (eligible resp).length := by
    rcases Nat.lt_or_ge i (eligible resp).length with hlt | hge
    · exact hlt
    · rw [List.getElem?_eq_none hge] at hpr; cases hpr
  have hne : eligible resp ≠ [] := by
    intro h0; rw [h0] at hil; simp at hil
  have hin : i < 5 - am.length := by
    unfold maxAutomergePRs at hi; omega
  rw [fetch_state] at hw1 hw2
  rw [← hw1] at ham hw2
  have hloop := labelLoop_eq_labelAll h repo (eligible resp) i 0 w2 (by omega)
  rw [List.drop_zero] at hloop
  rw [hloop] at hsucc hfail ⊢
  have hc := cycle_promote h repo w resp am hpend hne ham
  rw [hw2, promote_eq, take_split (eligible resp) (5 - am.length) i pr hin hpr,
    labelAll_fail h repo _ _ pr err w2 hsucc hfail] at hc
  simp only [reduceCtorEq, if_false, List.append_nil] at hc
  rw [main_eq, mainLoop_stop h repo fuel w (by rw [hc]; simp), hc, List.append_assoc]

/-- C7: if, in a promotion batch, the add-label call on the selected PR of
index `i` (counted from 0) is the first to fail, then the whole run consists of
the two queries, the add-label calls on the selected PRs up to and including
that one, in order, and nothing else: no call on a later PR, no remove-label
or other command, no sleep; it ends with the fatal message and exit code 1,
however long the loop is allowed to run. -/
theorem C7_first_failure_is_fatal {σ Out : Type} (h : Host σ Out) (name repo : String)
    (fuel : Nat) (w w1 w2 : σ) (resp am : List pullRequest) (i : Nat) (pr : pullRequest)
    (err : String)
    (hpend : (fetchPRsByLabel h repo ["autorelease: pending"] w).value = Except.ok resp)
    (hw1 : (fetchPRsByLabel h repo ["autorelease: pending"] w).state = w1)
    (ham : (fetchPRsByLabel h repo ["autorelease: pending", "automerge"] w1).value =
      Except.ok am)
    (hw2 : (fetchPRsByLabel h repo ["autorelease: pending", "automerge"] w1).state = w2)
    (hi : (i : Int) < maxAutomergePRs - am.length)
    (hpr : (eligible resp)[i]? = some pr)
    (hsucc : (labelLoop h repo (eligible resp) i 0 w2).value = Status.running)
    (hfail : (pr.Label h repo "automerge"
      (labelLoop h repo (eligible resp) i 0 w2).state).value = some err) :
    (main h [name, repo] (fuel + 1) w).value = Status.exited 1 ∧
    (main h [name, repo] (fuel + 1) w).state =
      (pr.Label h repo "automerge" (labelLoop h repo (eligible resp) i 0 w2).state).state ∧
    (main h [name, repo] (fuel + 1) w).trace =
      cycleHead repo (eligible resp) am ++
        ((eligible resp).take i).flatMap (labelEvents repo) ++ failEvents repo pr err ∧
    execCalls (main h [name, repo] (fuel + 1) w).trace =
      [listArgs repo ["autorelease: pending"],
        listArgs repo ["autorelease: pending", "automerge"]] ++
        ((eligible resp).take (i + 1)).map
          (fun p => addLabelArgs p.Number repo "automerge") ∧
    ∀ m, Event.sleep m ∉ (main h [name, repo] (fuel + 1) w).trace := by
  rw [main_first_failure h name repo fuel w w1 w2 resp am i pr err hpend hw1 ham hw2 hi hpr
    hsucc hfail]
  refine ⟨rfl, rfl, rfl, ?_, ?_⟩
  · simp only [execCalls_append, execCalls_cycleHead, execCalls_labelEvents,
      take_succ_of_getElem _ i pr hpr, List.map_append, List.map_cons, List.map_nil]
    simp [failEvents, execCalls]
  · intro m hm
    simp only [List.mem_append] at hm
    rcases hm with (hm | hm) | hm
    · exact no_sleep_cycleHead _ _ _ m hm
    · exact no_sleep_labelEvents _ _ m hm
    · simp [failEvents] at hm

set_option maxRecDepth 100000 in
/-- Scenario A on the model remote with the third add-label call failing: the
two queries, three add-label calls, exit code 1. -/
theorem C7_third_call_fails :
    (main remoteHost ["automerger", "o/r"] 4
        ⟨scenarioA, [false, false, false, false, true]⟩).value = Status.exited 1 ∧
      execCalls (main remoteHost ["automerger", "o/r"] 4
        ⟨scenarioA, [false, false, false, false, true]⟩).trace =
        [listArgs "o/r" ["autorelease: pending"],
          listArgs "o/r" ["autorelease: pending", "automerge"]] ++
          ((eligible scenarioA).take (2 + 1)).map
            (fun p => addLabelArgs p.Number "o/r" "automerge") :=
  have t := C7_first_failure_is_fatal remoteHost "automerger" "o/r" 3
    ⟨scenarioA, [false, false, false, false, true]⟩
    ⟨scenarioA, [false, false, false, true]⟩
    ⟨scenarioA, [false, false, true]⟩
    scenarioA [] 2 (releasePR 3 ["autorelease: pending"]) "exit status 1"
    (by rfl) (by rfl) (by rfl) (by rfl) (by decide) (by decide) (by decide) (by rfl)
  ⟨t.1, t.2.2.2.1⟩

theorem cycle_calls {σ Out : Type} (h : Host σ Out) (repo : String) (w : σ)
    (args : List String) (hmem : args ∈ execCalls (cycle h repo w).trace) :
    args = listArgs repo ["autorelease: pending"] ∨
      args = listArgs repo ["autorelease: pending", "automerge"] ∨
      ∃ resp pr, (fetchPRsByLabel h repo ["autorelease: pending"] w).value = Except.ok resp ∧
        pr ∈ eligible resp ∧ args = addLabelArgs pr.Number repo "automerge" := by
  cases hv1 : (fetchPRsByLabel h repo ["autorelease: pending"] w).value with
  | error err =>
    rw [cycle_pending_error h repo w err hv1] at hmem
    simp [execCalls] at hmem
    exact Or.inl hmem
  | ok resp =>
    by_cases hnil : eligible resp = []
    · rw [cycle_empty h repo w resp hv1 hnil] at hmem
      simp [execCalls] at hmem
      exact Or.inl hmem
    · cases hv2 : (fetchPRsByLabel h repo ["autorelease: pending", "automerge"]
          (h.gh (listArgs repo ["autorelease: pending"]) w).2).value with
      | error err =>
        rw [cycle_automerge_error h repo w resp err hv1 hnil hv2] at hmem
        have hrep : ∀ l : List pullRequest, execCalls (l.map reportLine) = [] := by
          intro l
          induction l with
          | nil => rfl
          | cons p rest ih => simp [reportLine, execCalls, ih]
        simp [execCalls_append, execCalls, hrep] at hmem
        rcases hmem with hm | hm
        · exact Or.inl hm
        · exact Or.inr (Or.inl hm)
      | ok am =>
        rw [cycle_promote h repo w resp am hv1 hnil hv2] at hmem
        simp only [execCalls_append, execCalls_cycleHead, List.mem_append] at hmem
        rcases hmem with (hm | hm) | hm
        · simp at hm
          rcases hm with hm | hm
          · exact Or.inl hm
          · exact Or.inr (Or.inl hm)
        · rw [promote_eq] at hm
          obtain ⟨j, _, hcalls⟩ := labelAll_calls h repo
            ((eligible resp).take (5 - am.length))
            (h.gh (listArgs repo ["autorelease: pending", "automerge"])
              (h.gh (listArgs repo ["autorelease: pending"]) w).2).2
          rw [hcalls, List.mem_map] at hm
          obtain ⟨pr, hpr, hargs⟩ := hm
          exact Or.inr (Or.inr ⟨resp, pr, rfl,
            List.mem_of_mem_take (List.mem_of_mem_take hpr), hargs.symm⟩)
        · split at hm <;> simp [execCalls] at hm

theorem mainLoop_calls {σ Out : Type} (h : Host σ Out) (repo : String) (fuel : Nat) :
    ∀ (w : σ) (args : List String), args ∈ execCalls (mainLoop h repo fuel w).trace →
      ∃ w', args ∈ execCalls (cycle h repo w').trace := by
  induction fuel with
  | zero => intro w args hmem; simp [mainLoop, execCalls] at hmem
  | succ fuel ih =>
    intro w args hmem
    rw [mainLoop] at hmem
    cases hv : (cycle h repo w).value with
    | running =>
      rw [hv] at hmem
      simp only [execCalls_append, List.mem_append] at hmem
      rcases hmem with hm | hm
      · exact ⟨w, hm⟩
      · exact ih _ _ hm
    | exited code => rw [hv] at hmem; exact ⟨w, hmem⟩
    | panicked => rw [hv] at hmem; exact ⟨w, hmem⟩

/-- C9: in every cycle, each command the program runs is one of the two list
queries or an add-label of exactly "automerge" on the given repository,
addressed by the number of a PR of that cycle's eligible list, a PR none of
whose labels is "wip", "automerge" or "no automerge".  Over a whole run, from
whatever arguments, the program runs nothing but these two queries and
add-label commands of "automerge" on the repository named by its argument:
never a remove-label, never another label. -/
theorem C9_only_automerge_added {σ Out : Type} (h : Host σ Out) :
    (∀ (repo : String) (w : σ) (args : List String),
      Event.exec args ∈ (cycle h repo w).trace →
        args = listArgs repo ["autorelease: pending"] ∨
        args = listArgs repo ["autorelease: pending", "automerge"] ∨
        ∃ resp pr,
          (fetchPRsByLabel h repo ["autorelease: pending"] w).value = Except.ok resp ∧
          pr ∈ eligible resp ∧
          (∀ l ∈ pr.Labels,
            l.Name ≠ "wip" ∧ l.Name ≠ "automerge" ∧ l.Name ≠ "no automerge") ∧
          args = ["pr", "edit", Itoa pr.Number, "--repo", repo, "--add-label", "automerge"]) ∧
    (∀ (osArgs : List String) (fuel : Nat) (w : σ) (args : List String),
      Event.exec args ∈ (main h osArgs fuel w).trace →
        ∃ name repo, osArgs = [name, repo] ∧
          (args = listArgs repo ["autorelease: pending"] ∨
           args = listArgs repo ["autorelease: pending", "automerge"] ∨
           ∃ n : Int,
            args = ["pr", "edit", Itoa n, "--repo", repo, "--add-label", "automerge"])) := by
  constructor
  · intro repo w args hmem
    rcases cycle_calls h repo w args ((mem_execCalls _ _).2 hmem) with hq | hq | ⟨resp, pr, hv, hpr, ha⟩
    · exact Or.inl hq
    · exact Or.inr (Or.inl hq)
    · refine Or.inr (Or.inr ⟨resp, pr, hv, hpr, ?_, ha⟩)
      rw [eligible_eq, List.mem_filter, keep_iff] at hpr
      exact hpr.2.2
  · intro osArgs fuel w args hmem
    match osArgs, hmem with
    | [], hmem => simp [main] at hmem
    | [a], hmem => simp [main] at hmem
    | [name, repo], hmem =>
      refine ⟨name, repo, rfl, ?_⟩
      rw [main_eq] at hmem
      obtain ⟨w', hw'⟩ := mainLoop_calls h repo fuel w args ((mem_execCalls _ _).2 hmem)
      rcases cycle_calls h repo w' args hw' with hq | hq | ⟨resp, pr, hv, hpr, ha⟩
      · exact Or.inl hq
      · exact Or.inr (Or.inl hq)
      · exact Or.inr (Or.inr ⟨pr.Number, ha⟩)
    | a :: b :: c :: rest, hmem => simp [main] at hmem

/-! ## The ceiling invariant on the model remote -/

theorem withLabel_number (num l : String) (p : pullRequest) :
    (withLabel num l p).Number = p.Number := by
  unfold withLabel
  split <;> rfl

theorem withLabel_other (num l : String) (p : pullRequest) (hne : Itoa p.Number ≠ num) :
    withLabel num l p = p := by
  unfold withLabel
  rw [if_neg]
  intro hc
  exact hne hc.1

theorem map_withLabel_numbers (num l : String) (prs : List pullRequest) :
    (prs.map (withLabel num l)).map (fun p => p.Number) = prs.map (fun p => p.Number) := by
  rw [List.map_map]
  apply List.map_congr_left
  intro p _
  exact withLabel_number num l p

theorem map_withLabel_absent (n : Int) (l : String) (prs : List pullRequest)
    (habs : n ∉ prs.map (fun p => p.Number)) :
    prs.map (withLabel (Itoa n) l) = prs := by
  induction prs with
  | nil => rfl
  | cons p rest ih =>
    rw [List.map_cons, List.mem_cons, not_or] at habs
    rw [List.map_cons, ih habs.2, withLabel_other]
    intro hc
    exact habs.1 (Itoa_injective hc).symm

theorem countP_withLabel_le (n : Int) (l : String) (prs : List pullRequest)
    (hnodup : (prs.map (fun p => p.Number)).Nodup) :
    (prs.map (withLabel (Itoa n) l)).countP queued ≤ prs.countP queued + 1 := by
  induction prs with
  | nil => simp
  | cons p rest ih =>
    rw [List.map_cons, List.nodup_cons] at hnodup
    by_cases hp : p.Number = n
    · rw [List.map_cons, map_withLabel_absent n l rest (hp ▸ hnodup.1)]
      rw [List.countP_cons, List.countP_cons]
      split <;> split <;> omega
    · rw [List.map_cons, withLabel_other _ _ p (fun hc => hp (Itoa_injective hc))]
      have := ih hnodup.2
      rw [List.countP_cons, List.countP_cons]
      omega

theorem labelValues_flatMap (labels : List String) (fields : String) :
    labelValues (labels.flatMap (fun l => ["--label", l]) ++ ["--json", fields]) = labels := by
  induction labels with
  | nil => simp [labelValues]
  | cons l rest ih =>
    have hcons : (l :: rest).flatMap (fun l => ["--label", l]) ++ ["--json", fields] =
        "--label" :: l :: (rest.flatMap (fun l => ["--label", l]) ++ ["--json", fields]) := by
      simp [List.flatMap_cons]
    rw [hcons, labelValues, if_pos rfl, ih]

theorem Remote_gh_list_state (repo : String) (labels : List String) (r : Remote) :
    (Remote.gh (listArgs repo labels) r).2.prs = r.prs := by
  unfold Remote.gh listArgs
  split <;> simp

theorem Remote_gh_list_value (repo : String) (labels : List String) (r : Remote)
    (prs : List pullRequest)
    (hv : (fetchPRsByLabel remoteHost repo labels r).value = Except.ok prs) :
    prs = (r.prs.filter (fun pr => labels.all (carries pr))).take 100 := by
  rw [fetchPRsByLabel_eq] at hv
  obtain ⟨prs0, fs⟩ := r
  have hfields := labelValues_flatMap labels "id,number,title,labels"
  rcases fs with _ | ⟨_ | _, later⟩ <;>
    simp [remoteHost, Remote.gh, listArgs, hfields] at hv ⊢ <;> exact hv.symm

theorem Remote_gh_add_state (n : Int) (repo l : String) (r : Remote) :
    (Remote.gh (addLabelArgs n repo l) r).2.prs = r.prs ∨
      (Remote.gh (addLabelArgs n repo l) r).2.prs = r.prs.map (withLabel (Itoa n) l) := by
  unfold Remote.gh addLabelArgs
  split <;> simp

theorem labelAll_remote_bound (repo : String) (sel : List pullRequest) :
    ∀ r : Remote, (r.prs.map (fun p => p.Number)).Nodup →
      (labelAll remoteHost repo sel r).state.prs.countP queued ≤
        r.prs.countP queued + sel.length := by
  induction sel with
  | nil => intro r _; simp [labelAll]
  | cons pr rest ih =>
    intro r hnodup
    have hstep : (pr.Label remoteHost repo "automerge" r).state =
        (Remote.gh (addLabelArgs pr.Number repo "automerge") r).2 := rfl
    have hnodup2 : (((Remote.gh (addLabelArgs pr.Number repo "automerge") r).2.prs).map
        (fun p => p.Number)).Nodup := by
      rcases Remote_gh_add_state pr.Number repo "automerge" r with he | he
      · rw [he]; exact hnodup
      · rw [he, map_withLabel_numbers]; exact hnodup
    have hcount : ((Remote.gh (addLabelArgs pr.Number repo "automerge") r).2.prs).countP queued ≤
        r.prs.countP queued + 1 := by
      rcases Remote_gh_add_state pr.Number repo "automerge" r with he | he
      · rw [he]; omega
      · rw [he]; exact countP_withLabel_le _ _ _ hnodup
    rw [labelAll]
    cases hv : (pr.Label remoteHost repo "automerge" r).value with
    | some err =>
      simp only [hstep, List.length_cons]
      omega
    | none =>
      simp only [hstep, List.length_cons]
      have := ih _ hnodup2
      omega

theorem queued_eq_all (pr : pullRequest) :
    ["autorelease: pending", "automerge"].all (carries pr) = queued pr := by
  simp [queued]

/-- C3: on the model remote, with pairwise distinct PR numbers, one cycle
leaves at most `max(q, 5)` PRs carrying both "autorelease: pending" and
"automerge", where `q` is their number before the cycle, whatever calls fail;
so at most 5 when `q ≤ 5`.  In scenario B (3 eligible, 4 queued, no failure)
the cycle issues exactly one add-label, on the first eligible PR, and 5 PRs
are queued afterwards. -/
theorem C3_ceiling_invariant (repo : String) (r : Remote)
    (hnodup : (r.prs.map (fun p => p.Number)).Nodup) :
    (cycle remoteHost repo r).state.prs.countP queued ≤ max (r.prs.countP queued) 5 ∧
    (r.prs.countP queued ≤ 5 → (cycle remoteHost repo r).state.prs.countP queued ≤ 5) ∧
    (execCalls (cycle remoteHost "o/r" ⟨scenarioB, []⟩).trace =
        [listArgs "o/r" ["autorelease: pending"],
          listArgs "o/r" ["autorelease: pending", "automerge"],
          addLabelArgs 5 "o/r" "automerge"] ∧
      (cycle remoteHost "o/r" ⟨scenarioB, []⟩).state.prs.countP queued = 5) := by
  have key : (cycle remoteHost repo r).state.prs.countP queued ≤ max (r.prs.countP queued) 5 := by
    cases hv1 : (fetchPRsByLabel remoteHost repo ["autorelease: pending"] r).value with
    | error err =>
      rw [cycle_pending_error remoteHost repo r err hv1]
      simp only [remoteHost, Remote_gh_list_state]
      omega
    | ok resp =>
      by_cases hnil : eligible resp = []
      · rw [cycle_empty remoteHost repo r resp hv1 hnil]
        simp only [remoteHost, Remote_gh_list_state]
        omega
      · cases hv2 : (fetchPRsByLabel remoteHost repo ["autorelease: pending", "automerge"]
            (remoteHost.gh (listArgs repo ["autorelease: pending"]) r).2).value with
        | error err =>
          rw [cycle_automerge_error remoteHost repo r resp err hv1 hnil hv2]
          simp only [remoteHost, Remote_gh_list_state]
          omega
        | ok am =>
          rw [cycle_promote remoteHost repo r resp am hv1 hnil hv2]
          simp only [promote_eq]
          have ham := Remote_gh_list_value repo _ _ am hv2
          have hprs : (remoteHost.gh (listArgs repo ["autorelease: pending", "automerge"])
              (remoteHost.gh (listArgs repo ["autorelease: pending"]) r).2).2.prs = r.prs := by
            simp only [remoteHost, Remote_gh_list_state]
          have hb := labelAll_remote_bound repo ((eligible resp).take (5 - am.length)) _
            (by rw [hprs]; exact hnodup)
          rw [hprs] at hb
          have hlen : am.length = min 100 (r.prs.countP queued) := by
            rw [ham]
            simp only [remoteHost, Remote_gh_list_state, queued_eq_all, List.length_take,
              List.countP_eq_length_filter]
          rw [List.length_take] at hb
          omega
  refine ⟨key, fun hq => ?_, ?_⟩
  · have := key
    omega
  · constructor <;> decide


/-- Scenario B on the model remote satisfies the hypothesis of the ceiling
invariant, and its bound holds there. -/
theorem C3_scenario_B :
    (scenarioB.map (fun p => p.Number)).Nodup ∧
      (cycle remoteHost "o/r" ⟨scenarioB, []⟩).state.prs.countP queued ≤
        max (scenarioB.countP queued) 5 :=
  ⟨by decide, (C3_ceiling_invariant "o/r" ⟨scenarioB, []⟩ (by decide)).1⟩

end Automerger
